import Mathlib

/-!
Shallow embedding of the image-to-quilt tessellation pipeline of
`src/client/src/app/util/imageProcessing.ts`, together with theorems
settling the specification claims about it.

Modelling conventions:
* JavaScript numbers are embedded as `ℕ`, `ℤ`, `ℚ` or `ℝ` as appropriate.
  Pixel coordinates, channel values and grid indices are `ℕ`/`ℤ`;
  geometric coordinates are exact rationals `ℚ` (idealising IEEE doubles);
  quantities that are genuinely irrational in the source (`Math.sqrt`,
  `Math.atan2`, `Math.PI`) are embedded as real numbers `ℝ`.
* `Math.sqrt` applied to a quantity that is only ever *compared* is elided
  by comparing the radicands instead: `Real.sqrt` is strictly monotone on
  nonnegative inputs, so `sqrt a < sqrt b ↔ a < b` and `sqrt a > 1 ↔ a > 1`
  for the integer radicands that occur, and the doubles involved (below
  `3·255²`) round-trip those comparisons exactly.
* Fallible or non-terminating code paths are modelled with `Option`:
  `none` marks a thrown `TypeError` or a `for` loop whose bound is
  `Infinity` (division by zero in JS) and hence never terminates.
* `array[i]` reads that can yield `undefined` in JS are modelled with
  `List.getD`; every theorem below only exercises them in range.
-/

namespace ArtQuilt

/-- An RGB color: 3 integer channels (source type `RGB = [number, number, number]`). -/
structure RGB where
  r : ℕ
  g : ℕ
  b : ℕ
deriving DecidableEq, Repr

/-- A decoded pixel buffer (browser `ImageData`): dimensions plus a flat
RGBA byte array, modelled as a total function from flat index to byte.
The browser never constructs an `ImageData` with a zero dimension
(`new ImageData(0, h)` throws), so theorems may assume `1 ≤ width` and
`1 ≤ height`. -/
structure ImageData where
  width : ℕ
  height : ℕ
  data : ℤ → ℕ

/-- `Math.round (a / b)` for natural `a` and positive natural `b`:
round-half-up of the exact quotient, `⌊a / b + 1 / 2⌋ = (2a + b) / (2b)`.
(The double division `a / b` in the source is exact enough that its
`Math.round` agrees with the exact-rational rounding for all feasible
pixel sums.) -/
def jsRound (a b : ℕ) : ℕ :=
  (2 * a + b) / (2 * b)

/-- The list of flat RGBA indices of the pixels of one grid cell:
`(y, x)` for `startY ≤ y < endY`, `startX ≤ x < endX`, row-major as in the
source's nested `for` loops. -/
def cellPixelIdx (width startX endX startY endY : ℕ) : List ℕ :=
  (List.range (endY - startY)).flatMap fun dy =>
    (List.range (endX - startX)).map fun dx =>
      ((startY + dy) * width + (startX + dx)) * 4

/-- The result record of `pixelateImage`. -/
structure PixelateResult where
  colors : List (List RGB)
  cellWidth : ℕ
  cellHeight : ℕ
deriving DecidableEq, Repr

/-- The averaged color of the grid cell at `(row, col)` of `pixelateImage`,
or `none` when the cell covers zero pixels (the source's
`if (count > 0)` push guard: a cell with `count = 0` is dropped). -/
def cellAverage (img : ImageData) (cellWidth row col : ℕ) : Option RGB :=
  let startX := col * cellWidth
  let startY := row * cellWidth
  let endX := min (startX + cellWidth) img.width
  let endY := min (startY + cellWidth) img.height
  let idxs := cellPixelIdx img.width startX endX startY endY
  let count := idxs.length
  if count > 0 then
    some ⟨jsRound (idxs.map (fun i => img.data i)).sum count,
          jsRound (idxs.map (fun i => img.data (i + 1))).sum count,
          jsRound (idxs.map (fun i => img.data (i + 2))).sum count⟩
  else none

/-- `pixelateImage(imageData, gridWidth)`: average the image over a
`gridWidth`-column grid of square cells of side
`cellWidth = ⌊width / gridWidth⌋`, with `gridHeight = ⌊height / cellWidth⌋`
rows.

`none` models the code not returning normally:
* `cellWidth = 0` with `height ≥ 1` makes `gridHeight = Math.floor(height / 0)
  = Infinity`, so the row loop never terminates;
* `gridWidth = 0` makes `cellWidth = Infinity` (not representable here;
  JS would return `colors = []` with infinite cell size — outside the
  spec's domain `gridWidth ≥ 1`, excluded from the model).

With `cellWidth = 0` and `height = 0`, `gridHeight = 0 / 0 = NaN` and the
row loop body never runs, so JS returns empty `colors`. -/
def pixelateImage (img : ImageData) (gridWidth : ℕ) : Option PixelateResult :=
  if gridWidth = 0 then none
  else
    let cellWidth := img.width / gridWidth
    if cellWidth = 0 then
      if img.height = 0 then some ⟨[], 0, 0⟩ else none
    else
      let gridHeight := img.height / cellWidth
      some ⟨(List.range gridHeight).map fun row =>
              (List.range gridWidth).filterMap fun col =>
                cellAverage img cellWidth row col,
            cellWidth, cellWidth⟩

/-- Squared Euclidean RGB distance. The source's `colorDistance` takes the
square root of this; it is only ever used in order comparisons, which the
squares decide identically (see the header note). -/
def colorDistSq (c1 c2 : RGB) : ℤ :=
  ((c1.r : ℤ) - c2.r) ^ 2 + ((c1.g : ℤ) - c2.g) ^ 2 + ((c1.b : ℤ) - c2.b) ^ 2

/-- The loop body of `findClosestColor`: keep the first strictly-closer
entry; `minDist = Infinity` is modelled as `none`. -/
def closestStep (color : RGB) (acc : RGB × Option ℤ) (p : RGB) : RGB × Option ℤ :=
  match acc.2 with
  | none => (p, some (colorDistSq color p))
  | some m =>
      if colorDistSq color p < m then (p, some (colorDistSq color p)) else acc

/-- `findClosestColor(color, palette)`: linear scan keeping the first
strictly-closer entry; `minDist` starts at `Infinity` and `closest`
starts at `palette[0]` (`headD` — `undefined` in JS when the palette is
empty, never exercised by the pipeline). -/
def findClosestColor (color : RGB) (palette : List RGB) : RGB :=
  (palette.foldl (closestStep color) (palette.headD ⟨0, 0, 0⟩, none)).1

/-- The index of the nearest centroid (ties to the lowest index), as in the
assignment loop of `quantizeColors`: `minDist` starts at `Infinity`,
`closestIdx` at `0`, update on strict `<`. -/
def closestIdx (color : RGB) (centroids : List RGB) : ℕ :=
  (centroids.foldl
    (fun (acc : ℕ × ℕ × Option ℤ) p =>
      match acc.2.2 with
      | none => (acc.1 + 1, acc.1, some (colorDistSq color p))
      | some m =>
          if colorDistSq color p < m then (acc.1 + 1, acc.1, some (colorDistSq color p))
          else (acc.1 + 1, acc.2.1, acc.2.2))
    (0, 0, none)).2.1

/-- `Math.min(...centroids.map(c => colorDistance(color, c)))`, on squared
distances. Defaults to `0` for an empty centroid list (JS would give
`Infinity`; all call sites have nonempty centroids). -/
def minDistSqTo (color : RGB) (centroids : List RGB) : ℤ :=
  ((centroids.map (colorDistSq color)).min?).getD 0

/-- The loop body of the seeding scan: update `(bestColor, maxDist)` when
this color's min-distance to the existing centroids is strictly larger. -/
def farthestStep (centroids : List RGB) (acc : RGB × ℤ) (color : RGB) : RGB × ℤ :=
  let md := minDistSqTo color centroids
  if md > acc.2 then (color, md) else acc

/-- One round of the k-means++-style seeding loop of `quantizeColors`:
scan `allColors` keeping the color whose distance to the nearest existing
centroid is strictly largest (`maxDist` starts at `-1`, `bestColor` at
`allColors[0]`). Note: this is a deterministic farthest-point selection,
not a random draw. -/
def farthestColor (allColors centroids : List RGB) : RGB :=
  (allColors.foldl (farthestStep centroids) (allColors.headD ⟨0, 0, 0⟩, -1)).1

/-- The `while (centroids.length < numColors)` seeding loop, fuelled (each
round appends exactly one centroid, so `numColors` fuel suffices). -/
def padCentroids (allColors : List RGB) (numColors : ℕ) :
    ℕ → List RGB → List RGB
  | 0, cs => cs
  | fuel + 1, cs =>
      if cs.length < numColors then
        padCentroids allColors numColors fuel (cs ++ [farthestColor allColors cs])
      else cs

/-- Initial centroid list of `quantizeColors`: the color at the random
index `idx = Math.floor(Math.random() * allColors.length)`, then
farthest-point padding up to `numColors` entries. -/
def kmeansInitCentroids (allColors : List RGB) (numColors idx : ℕ) : List RGB :=
  padCentroids allColors numColors numColors [allColors.getD idx ⟨0, 0, 0⟩]

/-- The cluster of centroid `i`: the input colors (in order) whose nearest
centroid index is `i` — exactly the contents of `clusters[i]` after the
assignment loop. -/
def clusterOf (allColors centroids : List RGB) (i : ℕ) : List RGB :=
  allColors.filter fun c => closestIdx c centroids = i

/-- Centroid update: channel-wise rounded mean of the cluster, keeping the
old centroid when the cluster is empty (`if (clusters[i].length === 0) continue`). -/
def updateCentroid (cluster : List RGB) (old : RGB) : RGB :=
  if cluster.length = 0 then old
  else
    ⟨jsRound (cluster.map RGB.r).sum cluster.length,
     jsRound (cluster.map RGB.g).sum cluster.length,
     jsRound (cluster.map RGB.b).sum cluster.length⟩

/-- One k-means iteration: assignment into `numColors` clusters, centroid
update, and the convergence flag (`converged` stays `true` iff every
nonempty cluster's centroid moved by distance at most 1, i.e. squared
distance at most 1). -/
def kmeansStep (allColors : List RGB) (numColors : ℕ) (centroids : List RGB) :
    List RGB × Bool :=
  let newCs := (List.range numColors).map fun i =>
    updateCentroid (clusterOf allColors centroids i) (centroids.getD i ⟨0, 0, 0⟩)
  let converged := (List.range numColors).all fun i =>
    let cl := clusterOf allColors centroids i
    cl.isEmpty ||
      decide (colorDistSq (updateCentroid cl (centroids.getD i ⟨0, 0, 0⟩))
        (centroids.getD i ⟨0, 0, 0⟩) ≤ 1)
  (newCs, converged)

/-- The capped k-means loop (`MAX_ITERATIONS = 20`), breaking after an
iteration whose update converged. -/
def kmeansLoop (allColors : List RGB) (numColors : ℕ) :
    ℕ → List RGB → List RGB
  | 0, cs => cs
  | fuel + 1, cs =>
      let step := kmeansStep allColors numColors cs
      if step.2 then step.1 else kmeansLoop allColors numColors fuel step.1

/-- `quantizeColors` with the consumed random draw already resolved to the
index `idx` of the first centroid. Returns `none` exactly when the JS code
throws: with `numColors = 0` and a nonempty input, the assignment loop
executes `clusters[0].push(...)` on `clusters = []`, a `TypeError`. -/
def quantizeColorsIdx (colors : List (List RGB)) (numColors idx : ℕ) :
    Option (List (List RGB) × List RGB) :=
  let allColors := colors.flatten
  if allColors.isEmpty then some ([], [])
  else if numColors = 0 then none
  else
    let centroids :=
      kmeansLoop allColors numColors 20 (kmeansInitCentroids allColors numColors idx)
    some (colors.map fun row => row.map fun c => findClosestColor c centroids, centroids)

/-- `quantizeColors(colors, numColors)` with the single `Math.random()`
call made explicit: `rand ∈ [0, 1)` yields the first-centroid index
`Math.floor(rand * allColors.length)`. -/
def quantizeColors (colors : List (List RGB)) (numColors : ℕ) (rand : ℚ) :
    Option (List (List RGB) × List RGB) :=
  quantizeColorsIdx colors numColors (Int.toNat ⌊rand * (colors.flatten.length : ℚ)⌋)

/-- `rgbToHex`: `#` plus three two-digit lowercase hex bytes
(`v.toString(16)` padded to two digits). -/
def rgbToHex (c : RGB) : String :=
  let hexByte := fun (v : ℕ) =>
    let s := (Nat.toDigits 16 v).asString
    if s.length = 1 then "0" ++ s else s
  "#" ++ hexByte c.r ++ hexByte c.g ++ hexByte c.b

/-- The shape-type tag. -/
inductive ShapeType where
  | pixel
  | triangle
  | hexagon
  | voronoi
deriving DecidableEq, Repr

/-- Per-shape stitching metadata. -/
structure StitchData where
  angle : ℕ
  sizeMm : ℚ
  seamAllowanceMm : ℚ
  edges : ℕ
  neighbors : List String
  gridPosition : ℕ × ℕ
deriving DecidableEq, Repr

/-- One quilt shape of the grid design. All geometry of the grid path is
integer (cellSize 20 px). -/
structure QuiltShape where
  id : String
  type : ShapeType
  x : ℕ
  y : ℕ
  width : ℕ
  height : ℕ
  color : String
  stitchData : StitchData
deriving DecidableEq, Repr

/-- Real-world fabrication data. -/
structure FabricData where
  totalWidthMm : ℚ
  totalHeightMm : ℚ
  cellSizeMm : ℚ
  seamAllowanceMm : ℚ
deriving DecidableEq, Repr

/-- The aggregate design record. -/
structure QuiltDesign where
  width : ℕ
  height : ℕ
  gridWidth : ℕ
  gridHeight : ℕ
  cellSize : ℕ
  shapeType : ShapeType
  colorPalette : List String
  shapes : List QuiltShape
  fabricData : FabricData
deriving DecidableEq, Repr

/-- `shape-${row}-${col}`. -/
def mkShapeId (row col : ℕ) : String :=
  "shape-" ++ toString row ++ "-" ++ toString col

/-- Neighbor id list in source order: top, right, bottom, left, each
omitted at the corresponding grid boundary. -/
def gridNeighbors (row col gridWidth gridHeight : ℕ) : List String :=
  (if row > 0 then [mkShapeId (row - 1) col] else []) ++
  (if col + 1 < gridWidth then [mkShapeId row (col + 1)] else []) ++
  (if row + 1 < gridHeight then [mkShapeId (row + 1) col] else []) ++
  (if col > 0 then [mkShapeId row (col - 1)] else [])

/-- The shape emitted for grid position `(row, col)`. -/
def mkGridShape (quantizedColors : List (List RGB)) (shapeType : ShapeType)
    (cellSizeMm seamAllowanceMm : ℚ) (gridWidth gridHeight row col : ℕ) :
    QuiltShape :=
  let cellSize := 20
  let color := (quantizedColors.getD row []).getD col ⟨0, 0, 0⟩
  { id := mkShapeId row col
    type := shapeType
    x := col * cellSize
    y := row * cellSize
    width := cellSize
    height := cellSize
    color := rgbToHex color
    stitchData :=
      { angle := 0
        sizeMm := cellSizeMm
        seamAllowanceMm := seamAllowanceMm
        edges := if shapeType = .pixel then 4 else if shapeType = .triangle then 3 else 6
        neighbors := gridNeighbors row col gridWidth gridHeight
        gridPosition := (row, col) } }

/-- `generateQuiltDesign(quantizedColors, palette, shapeType, cellSizeMm,
seamAllowanceMm)`: one `20 × 20` px shape per grid position, row-major;
`gridWidth` is the first row's length (`quantizedColors[0]?.length || 0`). -/
def generateQuiltDesign (quantizedColors : List (List RGB)) (palette : List RGB)
    (shapeType : ShapeType) (cellSizeMm seamAllowanceMm : ℚ) : QuiltDesign :=
  let gridHeight := quantizedColors.length
  let gridWidth := (quantizedColors.headD []).length
  let cellSize := 20
  { width := gridWidth * cellSize
    height := gridHeight * cellSize
    gridWidth := gridWidth
    gridHeight := gridHeight
    cellSize := cellSize
    shapeType := shapeType
    colorPalette := palette.map rgbToHex
    shapes := (List.range gridHeight).flatMap fun row =>
      (List.range gridWidth).map fun col =>
        mkGridShape quantizedColors shapeType cellSizeMm seamAllowanceMm
          gridWidth gridHeight row col
    fabricData :=
      { totalWidthMm := gridWidth * cellSizeMm
        totalHeightMm := gridHeight * cellSizeMm
        cellSizeMm := cellSizeMm
        seamAllowanceMm := seamAllowanceMm } }

/-- The grid branch of `processImageToQuiltSvg` up to the `QuiltDesign`
record (the SVG string is a pure function of the design):
pixelate, quantize, generate. `rand` is the one `Math.random()` value the
grid pipeline consumes (the first-centroid draw in `quantizeColors`). -/
def processGridDesign (img : ImageData) (gridWidth numColors : ℕ)
    (shapeType : ShapeType) (cellSizeMm seamAllowanceMm : ℚ) (rand : ℚ) :
    Option QuiltDesign :=
  (pixelateImage img gridWidth).bind fun pres =>
    (quantizeColors pres.colors numColors rand).map fun q =>
      generateQuiltDesign q.1 q.2 shapeType cellSizeMm seamAllowanceMm

/-! ### Voronoi geometry (exact rational coordinates) -/

/-- A 2-D point (`type Point = { x, y }`), with exact rational coordinates
idealising IEEE doubles. -/
structure Pt where
  x : ℚ
  y : ℚ
deriving DecidableEq, Repr

/-- A triangle of the Delaunay triangulation: three indices into the
points array. -/
structure Triangle where
  p1 : ℕ
  p2 : ℕ
  p3 : ℕ
deriving DecidableEq, Repr

/-- `circumcenter(p1, p2, p3)`: `none` for a degenerate triangle (the
source's `|d| < 1e-10` guard, idealised to `d = 0`). -/
def circumcenter (p1 p2 p3 : Pt) : Option Pt :=
  let ax := p1.x; let ay := p1.y
  let bx := p2.x; let by' := p2.y
  let cx := p3.x; let cy := p3.y
  let d := 2 * (ax * (by' - cy) + bx * (cy - ay) + cx * (ay - by'))
  if d = 0 then none
  else
    some ⟨((ax * ax + ay * ay) * (by' - cy) + (bx * bx + by' * by') * (cy - ay) +
             (cx * cx + cy * cy) * (ay - by')) / d,
          ((ax * ax + ay * ay) * (cx - bx) + (bx * bx + by' * by') * (ax - cx) +
             (cx * cx + cy * cy) * (bx - ax)) / d⟩

/-- Orientation-aware incircle predicate of the Bowyer–Watson insertion. -/
def inCircumcircle (p p1 p2 p3 : Pt) : Bool :=
  let ax := p1.x - p.x; let ay := p1.y - p.y
  let bx := p2.x - p.x; let by' := p2.y - p.y
  let cx := p3.x - p.x; let cy := p3.y - p.y
  let det := (ax * ax + ay * ay) * (bx * cy - cx * by') -
             (bx * bx + by' * by') * (ax * cy - cx * ay) +
             (cx * cx + cy * cy) * (ax * by' - bx * ay)
  let orient := (p1.x - p3.x) * (p2.y - p3.y) - (p1.y - p3.y) * (p2.x - p3.x)
  if orient > 0 then det > 0 else det < 0

/-- The three directed edges of a triangle, in source order. -/
def triangleEdges (t : Triangle) : List (ℕ × ℕ) :=
  [(t.p1, t.p2), (t.p2, t.p3), (t.p3, t.p1)]

/-- Whether edge `e` matches one of `other`'s edges in either direction. -/
def edgeSharedWith (e : ℕ × ℕ) (other : Triangle) : Bool :=
  (triangleEdges other).any fun ab =>
    (e.1 = ab.1 && e.2 = ab.2) || (e.1 = ab.2 && e.2 = ab.1)

/-- One Bowyer–Watson insertion step: remove the triangles whose
circumcircle contains point `p` (index `i`), collect the unshared boundary
edges of that cavity, and re-triangulate the cavity with `p`.
The source's reference-identity tests (`other === tri`,
`badTriangles.includes(t)`) are modelled with list positions / the incircle
predicate: every triangle object in the source list is a distinct fresh
object, so the two coincide. -/
def insertPoint (allPoints : List Pt) (triangles : List Triangle) (i : ℕ) (p : Pt) :
    List Triangle :=
  let isBad := fun (t : Triangle) =>
    inCircumcircle p (allPoints.getD t.p1 ⟨0, 0⟩) (allPoints.getD t.p2 ⟨0, 0⟩)
      (allPoints.getD t.p3 ⟨0, 0⟩)
  let badTriangles := triangles.filter isBad
  let polygon := badTriangles.enum.flatMap fun jt =>
    (triangleEdges jt.2).filter fun e =>
      ! badTriangles.enum.any fun j't' => j't'.1 ≠ jt.1 && edgeSharedWith e j't'.2
  triangles.filter (fun t => ! isBad t) ++ polygon.map fun e => ⟨e.1, e.2, i⟩

/-- `delaunayTriangulation(points, width, height)`: Bowyer–Watson over a
`10 × max(width, height)`-margin super-triangle, then discard triangles
touching a super-triangle vertex (the super indices are
`points.length .. points.length + 2`). -/
def delaunayTriangulation (points : List Pt) (width height : ℚ) : List Triangle :=
  let margin := max width height * 10
  let superTriangle : List Pt :=
    [⟨-margin, -margin⟩, ⟨width + margin * 2, -margin⟩, ⟨width / 2, height + margin * 2⟩]
  let allPoints := points ++ superTriangle
  let n := points.length
  let triangles :=
    points.enum.foldl (fun ts ip => insertPoint allPoints ts ip.1 ip.2) [⟨n, n + 1, n + 2⟩]
  triangles.filter fun t =>
    t.p1 ∉ [n, n + 1, n + 2] && t.p2 ∉ [n, n + 1, n + 2] && t.p3 ∉ [n, n + 1, n + 2]

/-- The angle group of the direction `(dx, dy)` under `Math.atan2 (dy, dx)
∈ (-π, π]`: `0` for the open lower half `(-π, 0)`, `1` for angle `0`
(nonnegative x-axis, including the origin), `2` for the open upper half
`(0, π)`, `3` for angle `π` (negative x-axis). -/
def angleGroup (dx dy : ℚ) : ℕ :=
  if dy < 0 then 0 else if dy > 0 then 2 else if dx ≥ 0 then 1 else 3

/-- `atan2 (a - s) ≤ atan2 (b - s)`, decided exactly on rationals: compare
angle groups first, and inside an open half-plane compare by the cross
product (counter-clockwise order). This is the comparator
`(a, b) => angleA - angleB` of the circumcenter sort. -/
def angleLe (s a b : Pt) : Bool :=
  let dxa := a.x - s.x; let dya := a.y - s.y
  let dxb := b.x - s.x; let dyb := b.y - s.y
  let ga := angleGroup dxa dya
  let gb := angleGroup dxb dyb
  if ga ≠ gb then decide (ga < gb)
  else if ga = 0 || ga = 2 then decide (dxa * dyb - dya * dxb ≥ 0)
  else true

/-- `computeVoronoiFromDelaunay(seeds, triangles, width, height)`: for each
seed, the circumcenters of its incident triangles sorted by angle around
the seed (a stable sort, as `Array.prototype.sort` is); seeds with no
incident triangle or fewer than 3 circumcenters keep the empty cell. -/
def computeVoronoiFromDelaunay (seeds : List Pt) (triangles : List Triangle)
    (width height : ℚ) : List (List Pt) :=
  (List.range seeds.length).map fun i =>
    let tris := triangles.filter fun t => t.p1 = i || t.p2 = i || t.p3 = i
    if tris.isEmpty then []
    else
      let circumcenters := tris.filterMap fun t =>
        circumcenter (seeds.getD t.p1 ⟨0, 0⟩) (seeds.getD t.p2 ⟨0, 0⟩)
          (seeds.getD t.p3 ⟨0, 0⟩)
      if circumcenters.length < 3 then []
      else circumcenters.mergeSort (angleLe (seeds.getD i ⟨0, 0⟩))

/-- A clip edge of the canvas rectangle. -/
structure ClipEdge where
  x1 : ℚ
  y1 : ℚ
  x2 : ℚ
  y2 : ℚ
deriving DecidableEq, Repr

/-- The signed area cross product of `isInsideEdge`: the point is inside
the half-plane of `edge` iff this is nonnegative. -/
def edgeCross (e : ClipEdge) (p : Pt) : ℚ :=
  (e.x2 - e.x1) * (p.y - e.y1) - (e.y2 - e.y1) * (p.x - e.x1)

/-- `isInsideEdge(p, edge)`. -/
def isInsideEdge (p : Pt) (e : ClipEdge) : Bool :=
  decide (edgeCross e p ≥ 0)

/-- `lineIntersection(p1, p2, edge)`: intersection of the segment's line
with the edge's line; `none` on the (idealised-to-exact) parallel guard
`|denom| < 1e-10`. -/
def lineIntersection (p1 p2 : Pt) (e : ClipEdge) : Option Pt :=
  let denom := (p1.x - p2.x) * (e.y1 - e.y2) - (p1.y - p2.y) * (e.x1 - e.x2)
  if denom = 0 then none
  else
    let t := ((p1.x - e.x1) * (e.y1 - e.y2) - (p1.y - e.y1) * (e.x1 - e.x2)) / denom
    some ⟨p1.x + t * (p2.x - p1.x), p1.y + t * (p2.y - p1.y)⟩

/-- One Sutherland–Hodgman pass against a single clip edge. -/
def clipStep (e : ClipEdge) (input : List Pt) : List Pt :=
  (List.range input.length).flatMap fun i =>
    let current := input.getD i ⟨0, 0⟩
    let next := input.getD ((i + 1) % input.length) ⟨0, 0⟩
    if isInsideEdge current e then
      if isInsideEdge next e then [current]
      else current :: (lineIntersection current next e).toList
    else if isInsideEdge next e then (lineIntersection current next e).toList
    else []

/-- The four canvas clip edges, in source order: top, right, bottom, left. -/
def rectClipEdges (width height : ℚ) : List ClipEdge :=
  [⟨0, 0, width, 0⟩, ⟨width, 0, width, height⟩,
   ⟨width, height, 0, height⟩, ⟨0, height, 0, 0⟩]

/-- `clipPolygonToRect(polygon, width, height)`: sequential clipping
against the four canvas edges. The source's early `break` on an empty
intermediate output is observationally the identity, since a clip pass on
an empty list is empty. -/
def clipPolygonToRect (polygon : List Pt) (width height : ℚ) : List Pt :=
  if polygon.isEmpty then []
  else (rectClipEdges width height).foldl (fun output e => clipStep e output) polygon

/-- Shoelace polygon area (`Math.abs(area) / 2`). -/
def computePolygonArea (polygon : List Pt) : ℚ :=
  if polygon.length < 3 then 0
  else
    let s := ((List.range polygon.length).map fun i =>
      let p := polygon.getD i ⟨0, 0⟩
      let q := polygon.getD ((i + 1) % polygon.length) ⟨0, 0⟩
      p.x * q.y - q.x * p.y).sum
    |s| / 2

/-- Ray-casting point-in-polygon test (`pointInPolygon`); the `j` index is
the predecessor of `i` cyclically, starting at the last vertex. -/
def pointInPolygon (p : Pt) (polygon : List Pt) : Bool :=
  let n := polygon.length
  (List.range n).foldl
    (fun inside i =>
      let pi := polygon.getD i ⟨0, 0⟩
      let pj := polygon.getD ((i + n - 1) % n) ⟨0, 0⟩
      if (decide (pi.y > p.y) != decide (pj.y > p.y)) &&
          decide (p.x < (pj.x - pi.x) * (p.y - pi.y) / (pj.y - pi.y) + pi.x)
      then !inside else inside)
    false

/-- The inclusive integer range `[lo, hi]` (empty when `hi < lo`). -/
def intRange (lo hi : ℤ) : List ℤ :=
  (List.range (hi + 1 - lo).toNat).map fun k => lo + k

/-- `samplePolygonColor(polygon, imageData, palette)`: average the pixels
inside the polygon over its canvas-clamped bounding box and snap to the
nearest palette entry; with zero enclosed pixels, fall back to the single
pixel at the floor of the bounding-box center. Polygons with fewer than 3
vertices get the gray `[128, 128, 128]` (never reached from
`computeVoronoiCells`, which skips them first). -/
def samplePolygonColor (polygon : List Pt) (img : ImageData) (palette : List RGB) :
    RGB :=
  if polygon.length < 3 then ⟨128, 128, 128⟩
  else
    let minX : ℤ := max 0 ⌊((polygon.map Pt.x).min?.getD 0)⌋
    let minY : ℤ := max 0 ⌊((polygon.map Pt.y).min?.getD 0)⌋
    let maxX : ℤ := min ((img.width : ℤ) - 1) ⌈((polygon.map Pt.x).max?.getD 0)⌉
    let maxY : ℤ := min ((img.height : ℤ) - 1) ⌈((polygon.map Pt.y).max?.getD 0)⌉
    let insidePts := (intRange minY maxY).flatMap fun (y : ℤ) =>
      (intRange minX maxX).filterMap fun (x : ℤ) =>
        if pointInPolygon ⟨(x : ℚ), (y : ℚ)⟩ polygon then some (x, y) else none
    let count := insidePts.length
    if count = 0 then
      let cx : ℚ := ((minX : ℚ) + maxX) / 2
      let cy : ℚ := ((minY : ℚ) + maxY) / 2
      let idx := (⌊cy⌋ * img.width + ⌊cx⌋) * 4
      findClosestColor ⟨img.data idx, img.data (idx + 1), img.data (idx + 2)⟩ palette
    else
      let pixIdx := insidePts.map fun q => (q.2 * (img.width : ℤ) + q.1) * 4
      findClosestColor
        ⟨jsRound (pixIdx.map fun i => img.data i).sum count,
         jsRound (pixIdx.map fun i => img.data (i + 1)).sum count,
         jsRound (pixIdx.map fun i => img.data (i + 2)).sum count⟩ palette

/-- A Voronoi cell record. -/
structure VoronoiCell where
  id : String
  seed : Pt
  color : RGB
  polygon : List Pt
  area : ℚ
deriving DecidableEq, Repr

/-- `computeVoronoiCells(seeds, width, height, imageData, palette)`:
triangulate, dualise, then per seed: skip raw cells with fewer than 3
vertices, clip to the canvas, skip clipped cells with fewer than 3
vertices, and sample the cell color. -/
def computeVoronoiCells (seeds : List Pt) (width height : ℚ) (img : ImageData)
    (palette : List RGB) : List VoronoiCell :=
  let triangles := delaunayTriangulation seeds width height
  let rawCells := computeVoronoiFromDelaunay seeds triangles width height
  (List.range seeds.length).filterMap fun i =>
    let polygon := rawCells.getD i []
    if polygon.length < 3 then none
    else
      let clipped := clipPolygonToRect polygon width height
      if clipped.length < 3 then none
      else
        some { id := "voronoi-" ++ toString i
               seed := seeds.getD i ⟨0, 0⟩
               color := samplePolygonColor clipped img palette
               polygon := clipped
               area := computePolygonArea clipped }

/-! ### Lloyd relaxation -/

/-- The pixel sampling stride: `Math.max(1, Math.floor(Math.sqrt(width *
height / 50000)))`; `⌊√(q)⌋ = Nat.sqrt ⌊q⌋` for nonnegative rationals. -/
def lloydSampleStep (width height : ℕ) : ℕ :=
  max 1 (Nat.sqrt (width * height / 50000))

/-- The sampled pixel lattice of one Lloyd iteration, row-major with
stride `lloydSampleStep`. -/
def lloydSamples (width height : ℕ) : List (ℕ × ℕ) :=
  let step := lloydSampleStep width height
  ((List.range ((height + step - 1) / step)).map (· * step)).flatMap fun y =>
    ((List.range ((width + step - 1) / step)).map (· * step)).map fun x => (x, y)

/-- Index of the seed nearest to `(x, y)` (squared distance, strict
improvement, ties to the lowest index, `minDist` starting at `Infinity`). -/
def nearestSeedIdx (seeds : List Pt) (x y : ℚ) : ℕ :=
  (seeds.foldl
    (fun (acc : ℕ × ℕ × Option ℚ) s =>
      let d := (x - s.x) ^ 2 + (y - s.y) ^ 2
      match acc.2.2 with
      | none => (acc.1 + 1, acc.1, some d)
      | some m => if d < m then (acc.1 + 1, acc.1, some d) else (acc.1 + 1, acc.2.1, acc.2.2))
    (0, 0, none)).2.1

/-- The iterated body of `lloydRelaxation`: move every seed to the
centroid of its assigned samples, keeping seeds with no assigned sample in
place. (The source's `cellAssignment` array is written but never read.) -/
def lloydIterate (width height : ℕ) : ℕ → List Pt → List Pt
  | 0, seeds => seeds
  | iter + 1, seeds =>
      let samples := lloydSamples width height
      let newSeeds := seeds.enum.map fun is =>
        let mine := samples.filter fun q => nearestSeedIdx seeds q.1 q.2 = is.1
        if mine.length > 0 then
          ⟨(mine.map fun q => (q.1 : ℚ)).sum / mine.length,
           (mine.map fun q => (q.2 : ℚ)).sum / mine.length⟩
        else is.2
      lloydIterate width height iter newSeeds

/-- `lloydRelaxation(seeds, width, height, iterations)`; zero iterations
returns the input list itself. -/
def lloydRelaxation (seeds : List Pt) (width height iterations : ℕ) : List Pt :=
  if iterations = 0 then seeds else lloydIterate width height iterations seeds

/-! ### Seed generation (Sobel-based, real-valued)

The edge magnitudes and directions of `computeEdgeData` involve
`Math.sqrt` and `Math.atan2`, so here arrays of them are modelled as
functions into `ℝ` and the definitions are noncomputable (classical
decidability for the real comparisons). The `Math.random()` stream is an
explicit parameter `rng : ℕ → ℚ` (call number ↦ drawn value), and the
implementation-defined shuffle `[...].sort(() => Math.random() - 0.5)` is
an explicit reordering parameter `shuffle`. -/

open scoped Classical in
/-- JavaScript's `%` on numbers: `v - m * trunc (v / m)`. -/
noncomputable def jsFmod (v m : ℝ) : ℝ :=
  if 0 ≤ v / m then v - m * ⌊v / m⌋ else v - m * ⌈v / m⌉

/-- The per-pixel edge data record of `computeEdgeData`. -/
structure EdgeData where
  magnitude : ℕ → ℝ
  direction : ℕ → ℝ
  gray : ℕ → ℝ

open scoped Classical in
/-- `nonMaxSuppression(magnitude, direction, width, height)`: zero every
non-interior pixel and every pixel that is not a local maximum along the
perpendicular of its quantized gradient direction. The written indices
`y * width + x` with `x < width` are in bijection with `(x, y)`, so the
result array is the function below. (The final 135° branch is unreachable
in the source: after `angle < 1 || angle >= 3` fails, `angle < 3` holds.) -/
noncomputable def nonMaxSuppression (magnitude direction : ℕ → ℝ)
    (width height : ℕ) : ℕ → ℝ := fun idx =>
  let x := idx % width
  let y := idx / width
  if 1 ≤ x ∧ x + 1 < width ∧ 1 ≤ y ∧ y + 1 < height then
    let mag := magnitude idx
    let dir := direction idx
    let angle := jsFmod ((dir + Real.pi) / Real.pi * 4) 4
    let nbrs : ℝ × ℝ :=
      if angle < 1 ∨ angle ≥ 3 then
        (magnitude ((y - 1) * width + x), magnitude ((y + 1) * width + x))
      else if angle < 2 then
        (magnitude ((y - 1) * width + (x + 1)), magnitude ((y + 1) * width + (x - 1)))
      else if angle < 3 then
        (magnitude (y * width + (x - 1)), magnitude (y * width + (x + 1)))
      else
        (magnitude ((y - 1) * width + (x - 1)), magnitude ((y + 1) * width + (x + 1)))
    if nbrs.1 ≤ mag ∧ nbrs.2 ≤ mag then mag else 0
  else 0

/-- The 8-connected neighbor offsets `(dy, dx)` in source loop order. -/
def neighborOffsets : List (ℤ × ℤ) :=
  [(-1, -1), (-1, 0), (-1, 1), (0, -1), (0, 1), (1, -1), (1, 0), (1, 1)]

open scoped Classical in
/-- The in-bounds, unvisited neighbors of `p` with magnitude at least the
low threshold, in the order the hysteresis loop visits them. -/
noncomputable def hysteresisNeighbors (magnitude : ℕ → ℝ) (width height : ℕ)
    (low : ℝ) (visited : ℕ → Bool) (p : ℕ × ℕ) : List (ℕ × ℕ) :=
  neighborOffsets.filterMap fun d =>
    let nx : ℤ := (p.1 : ℤ) + d.2
    let ny : ℤ := (p.2 : ℤ) + d.1
    if nx < 0 ∨ (width : ℤ) ≤ nx ∨ ny < 0 ∨ (height : ℤ) ≤ ny then none
    else
      let nidx := (ny * width + nx).toNat
      if visited nidx then none
      else if low ≤ magnitude nidx then some (nx.toNat, ny.toNat) else none

open scoped Classical in
/-- The hysteresis flood fill of `extractEdgePixels`, fuelled: every
enqueued pixel is first marked visited, so at most `width * height` pixels
are ever enqueued and `2 * width * height + 1` fuel covers every `shift`.
Within one dequeue the 8 neighbor indices are distinct, so checking them
against the entry snapshot of `visited` matches the source's sequential
check-and-mark. -/
noncomputable def hysteresisBFS (magnitude : ℕ → ℝ) (width height : ℕ) (low : ℝ) :
    ℕ → List (ℕ × ℕ) → (ℕ → Bool) → List (ℕ × ℕ) → List (ℕ × ℕ)
  | 0, _, _, acc => acc
  | fuel + 1, queue, visited, acc =>
      match queue with
      | [] => acc
      | p :: rest =>
          let ns := hysteresisNeighbors magnitude width height low visited p
          let visited' := fun idx =>
            visited idx || ns.any fun q => decide (q.2 * width + q.1 = idx)
          hysteresisBFS magnitude width height low fuel (rest ++ ns) visited' (acc ++ ns)

open scoped Classical in
/-- `extractEdgePixels(magnitude, width, height, 0.15, 0.05)`: strong
edges (≥ high threshold) seed an 8-connected flood fill absorbing pixels
≥ low threshold; both thresholds are ratios of the global maximum
magnitude. -/
noncomputable def extractEdgePixels (magnitude : ℕ → ℝ) (width height : ℕ)
    (highThresholdRatio : ℝ := 0.15) (lowThresholdRatio : ℝ := 0.05) :
    List (ℕ × ℕ) :=
  let maxMag := ((List.range (width * height)).map magnitude).foldl max 0
  let highThreshold := maxMag * highThresholdRatio
  let lowThreshold := maxMag * lowThresholdRatio
  let strongEdges := (List.range' 1 (height - 2)).flatMap fun y =>
    (List.range' 1 (width - 2)).filterMap fun x =>
      if highThreshold ≤ magnitude (y * width + x) then some (x, y) else none
  let visited0 : ℕ → Bool := fun idx =>
    strongEdges.any fun q => decide (q.2 * width + q.1 = idx)
  hysteresisBFS magnitude width height lowThreshold (2 * width * height + 1)
    strongEdges visited0 strongEdges

open scoped Classical in
/-- `sampleEdgePoints(edgePixels, targetCount, minDistance)`:
shuffle-then-greedy-accept with a pairwise minimum distance, stopping at
`targetCount` accepted points. (The source's `used` set is write-only.) -/
noncomputable def sampleEdgePoints (edgePixels : List (ℕ × ℕ)) (targetCount : ℕ)
    (minDistance : ℝ) (shuffle : List (ℕ × ℕ) → List (ℕ × ℕ)) : List (ℕ × ℕ) :=
  if edgePixels.isEmpty then []
  else
    (shuffle edgePixels).foldl
      (fun sampled p =>
        if sampled.length ≥ targetCount then sampled
        else if ∃ s ∈ sampled,
            ((p.1 : ℝ) - s.1) ^ 2 + ((p.2 : ℝ) - s.2) ^ 2 < minDistance ^ 2 then
          sampled
        else sampled ++ [p])
      []

open scoped Classical in
/-- The fill-seed rejection sampling loop of `generateVoronoiSeeds`,
fuelled by the remaining attempts (`maxAttempts = numFillSeeds * 20`);
`attempt` numbers the `Math.random()` pairs already consumed. A candidate
is rejected within `0.8 × minEdgeDistance` of an edge seed or
`0.6 × minEdgeDistance` of an accepted fill seed. -/
noncomputable def fillSeedsLoop (width height : ℕ) (edgeSeeds : List (ℕ × ℕ))
    (minEdgeDistance : ℝ) (numFillSeeds : ℕ) (rng : ℕ → ℚ) :
    ℕ → ℕ → List Pt → List Pt
  | 0, _, fills => fills
  | fuel + 1, attempt, fills =>
      if fills.length < numFillSeeds then
        let x : ℚ := rng (2 * attempt) * width
        let y : ℚ := rng (2 * attempt + 1) * height
        let tooClose :=
          (∃ s ∈ edgeSeeds,
            ((x : ℝ) - s.1) ^ 2 + ((y : ℝ) - s.2) ^ 2 < (minEdgeDistance * 0.8) ^ 2) ∨
          (∃ s ∈ fills,
            ((x : ℝ) - (s.x : ℝ)) ^ 2 + ((y : ℝ) - (s.y : ℝ)) ^ 2 <
              (minEdgeDistance * 0.6) ^ 2)
        fillSeedsLoop width height edgeSeeds minEdgeDistance numFillSeeds rng fuel
          (attempt + 1) (if tooClose then fills else fills ++ [⟨x, y⟩])
      else fills

/-- `generateVoronoiSeeds(width, height, numSeeds, edgeData?, edgeWeighted)`.
Without edge weighting (or without edge data): `numSeeds` uniform points,
the `i`-th consuming random draws `2i` and `2i + 1`. With edge weighting:
`Math.floor(numSeeds * 0.6)` edge-seed slots — for every seed count a
double can hold, `Math.floor(numSeeds * 0.6) = 3 * numSeeds / 5`, since
the rounding error of `0.6` never carries the product across an integer —
filled from the thinned edge pixels, and the rest filled by rejection
sampling. (The source also builds an `occupiedCells` set from the edge
seeds, but never reads it; dead code, omitted.) -/
noncomputable def generateVoronoiSeeds (width height numSeeds : ℕ)
    (edgeData : Option EdgeData) (edgeWeighted : Bool) (rng : ℕ → ℚ)
    (shuffle : List (ℕ × ℕ) → List (ℕ × ℕ)) : List Pt :=
  match edgeWeighted, edgeData with
  | true, some ed =>
      let thinEdges := nonMaxSuppression ed.magnitude ed.direction width height
      let edgePixels := extractEdgePixels thinEdges width height
      let numEdgeSeeds := 3 * numSeeds / 5
      let numFillSeeds := numSeeds - numEdgeSeeds
      let avgCellSize : ℝ := Real.sqrt ((width * height : ℝ) / numSeeds)
      let minEdgeDistance := avgCellSize * 0.5
      let edgeSeeds := sampleEdgePoints edgePixels numEdgeSeeds minEdgeDistance shuffle
      let fillSeeds := fillSeedsLoop width height edgeSeeds minEdgeDistance
        numFillSeeds rng (numFillSeeds * 20) 0 []
      (edgeSeeds.map fun q => (⟨q.1, q.2⟩ : Pt)) ++ fillSeeds
  | _, _ =>
      (List.range numSeeds).map fun i =>
        ⟨rng (2 * i) * width, rng (2 * i + 1) * height⟩

/-! ### Helper lemmas -/

/-- With the random draw `0`, the quantizer picks index `0`
(`Math.floor(0 * n) = 0`): bridges the rational-valued entry point to its
integer-level core for concrete evaluation. -/
lemma quantizeColors_rand_zero (colors : List (List RGB)) (k : ℕ) :
    quantizeColors colors k 0 = quantizeColorsIdx colors k 0 := by
  simp [quantizeColors]

lemma colorDistSq_nonneg (c1 c2 : RGB) : 0 ≤ colorDistSq c1 c2 := by
  unfold colorDistSq
  positivity

lemma minDistSqTo_nonneg (c : RGB) (cs : List RGB) : 0 ≤ minDistSqTo c cs := by
  unfold minDistSqTo
  cases h : (cs.map (colorDistSq c)).min? with
  | none => simp
  | some m =>
      have hm := List.min?_mem (fun a b => min_choice a b) h
      obtain ⟨x, -, rfl⟩ := List.mem_map.mp hm
      simpa using colorDistSq_nonneg c x

lemma padCentroids_length (allColors : List RGB) (k : ℕ) :
    ∀ fuel cs, cs.length ≤ k → k ≤ cs.length + fuel →
      (padCentroids allColors k fuel cs).length = k := by
  intro fuel
  induction fuel with
  | zero => intro cs h1 h2; simpa [padCentroids] using by omega
  | succ n ih =>
      intro cs h1 h2
      rw [padCentroids]
      split
      · exact ih _ (by simp; omega) (by simp; omega)
      · omega

lemma kmeansInitCentroids_length (allColors : List RGB) (k idx : ℕ) (hk : 1 ≤ k) :
    (kmeansInitCentroids allColors k idx).length = k := by
  exact padCentroids_length allColors k k _ (by simpa using hk) (by simp)

lemma kmeansStep_length (allColors : List RGB) (k : ℕ) (cs : List RGB) :
    (kmeansStep allColors k cs).1.length = k := by
  simp [kmeansStep]

lemma kmeansLoop_length (allColors : List RGB) (k : ℕ) :
    ∀ fuel cs, cs.length = k → (kmeansLoop allColors k fuel cs).length = k := by
  intro fuel
  induction fuel with
  | zero => intro cs h; simpa [kmeansLoop] using h
  | succ n ih =>
      intro cs h
      rw [kmeansLoop]
      split
      · exact kmeansStep_length allColors k cs
      · exact ih _ (kmeansStep_length allColors k cs)

/-! ### C7: Lloyd relaxation with zero iterations -/

/-- **C7.** For every seed list and canvas, Lloyd relaxation with
`iterations = 0` returns the input seed list exactly (the source's
`if (iterations === 0) return seeds` returns the argument itself,
unmutated). -/
theorem lloyd_zero_iterations_id (seeds : List Pt) (width height : ℕ) :
    lloydRelaxation seeds width height 0 = seeds := by
  simp [lloydRelaxation]

/-! ### C8: empty input to the Color Quantizer -/

/-- **C8.** For an empty input color list and any requested color count,
`quantizeColors` returns an empty palette and an empty assignment, and
does not throw (`some` result, via the early-return guard). -/
theorem quantize_empty_input (colors : List (List RGB)) (numColors : ℕ) (rand : ℚ)
    (h : colors.flatten = []) :
    quantizeColors colors numColors rand = some ([], []) := by
  unfold quantizeColors quantizeColorsIdx
  simp [h]

/-- Witness for C8 at a concrete input: two empty rows flatten to the
empty color list. -/
theorem quantize_empty_input_witness :
    quantizeColors [[], []] 5 (1 / 3) = some ([], []) :=
  quantize_empty_input [[], []] 5 (1 / 3) (by decide)

/-! ### C2: palette size -/

/-- **C2, counterexample.** On the single-distinct-color input
`[[(0,0,0)]]` with requested count `k = 2`, the quantizer pads the
centroid list with a duplicate and returns a palette of 2 entries even
though there is only 1 distinct input color — refuting "the palette never
exceeds the number of distinct input colors". -/
theorem quantize_palette_exceeds_distinct_cex :
    quantizeColors [[⟨0, 0, 0⟩]] 2 0 =
        some ([[⟨0, 0, 0⟩]], [⟨0, 0, 0⟩, ⟨0, 0, 0⟩]) ∧
      ([[(⟨0, 0, 0⟩ : RGB)]].flatten.dedup.length = 1) := by
  rw [quantizeColors_rand_zero]
  constructor
  · decide
  · decide

/-- **C2, amended.** For every non-empty input color list and every
requested count `k ≥ 1`, the returned palette has *exactly* `k` entries
(the seeding loop pads with duplicates when there are fewer distinct
colors than `k`); in particular it has at most `k` entries, but it can
exceed the number of distinct input colors. -/
theorem quantize_palette_size_eq (colors : List (List RGB)) (k : ℕ) (rand : ℚ)
    (q : List (List RGB) × List RGB) (hk : k ≠ 0) (hne : colors.flatten ≠ [])
    (hq : quantizeColors colors k rand = some q) : q.2.length = k := by
  unfold quantizeColors quantizeColorsIdx at hq
  rw [if_neg (by simpa [List.isEmpty_iff] using hne), if_neg hk] at hq
  obtain ⟨-, rfl⟩ := Option.some.injEq .. ▸ hq
  exact kmeansLoop_length _ _ _ _
    (kmeansInitCentroids_length _ _ _ (Nat.one_le_iff_ne_zero.mpr hk))

/-- Witness for C2 (amended) at a concrete input. -/
theorem quantize_palette_size_eq_witness :
    (1 : ℕ) ≠ 0 ∧ ([[(⟨1, 2, 3⟩ : RGB)]].flatten ≠ []) ∧
      ([[(⟨1, 2, 3⟩ : RGB)]], [(⟨1, 2, 3⟩ : RGB)]).2.length = 1 :=
  ⟨by decide, by decide,
    quantize_palette_size_eq [[⟨1, 2, 3⟩]] 1 0 ([[⟨1, 2, 3⟩]], [⟨1, 2, 3⟩])
      (by decide) (by decide) (by rw [quantizeColors_rand_zero]; decide)⟩

/-! ### C3: centroid seeding -/

/-- **C3, counterexample.** The subsequent-centroid selection is a
deterministic farthest-point rule, not a draw with probability
proportional to squared distance: on `[(0,0,0), (10,0,0), (255,0,0)]`
with first centroid `(0,0,0)` (random index 0), the second centroid is
always `(255,0,0)` — the seeding consumes no further randomness — even
though `(10,0,0)` has strictly positive squared distance to the nearest
centroid and so would be chosen with positive probability under k-means++
sampling. -/
theorem kmeans_seeding_deterministic_cex :
    kmeansInitCentroids [⟨0, 0, 0⟩, ⟨10, 0, 0⟩, ⟨255, 0, 0⟩] 2 0 =
        [⟨0, 0, 0⟩, ⟨255, 0, 0⟩] ∧
      0 < colorDistSq ⟨10, 0, 0⟩ ⟨0, 0, 0⟩ ∧
      (⟨255, 0, 0⟩ : RGB) ≠ ⟨10, 0, 0⟩ := by
  refine ⟨by decide, by decide, by decide⟩

lemma farthest_fold (centroids : List RGB) :
    ∀ (l : List RGB) (acc : RGB × ℤ),
      (∀ c ∈ l, minDistSqTo c centroids ≤ (l.foldl (farthestStep centroids) acc).2) ∧
      acc.2 ≤ (l.foldl (farthestStep centroids) acc).2 ∧
      (l.foldl (farthestStep centroids) acc = acc ∨
        ((l.foldl (farthestStep centroids) acc).1 ∈ l ∧
          (l.foldl (farthestStep centroids) acc).2 =
            minDistSqTo (l.foldl (farthestStep centroids) acc).1 centroids)) := by
  intro l
  induction l with
  | nil => intro acc; simp
  | cons a t ih =>
      intro acc
      rw [List.foldl_cons]
      by_cases hgt : minDistSqTo a centroids > acc.2
      · rw [show farthestStep centroids acc a = (a, minDistSqTo a centroids) from
          if_pos hgt]
        obtain ⟨ih1, ih2, ih3⟩ := ih (a, minDistSqTo a centroids)
        refine ⟨?_, le_trans (le_of_lt hgt) ih2, ?_⟩
        · intro c hc
          rcases List.mem_cons.mp hc with rfl | hc
          · exact le_trans (le_refl _) ih2
          · exact ih1 c hc
        · rcases ih3 with heq | ⟨hm, hl⟩
          · right
            rw [heq]
            exact ⟨by simp, rfl⟩
          · exact Or.inr ⟨List.mem_cons_of_mem a hm, hl⟩
      · rw [show farthestStep centroids acc a = acc from if_neg hgt]
        obtain ⟨ih1, ih2, ih3⟩ := ih acc
        refine ⟨?_, ih2, ?_⟩
        · intro c hc
          rcases List.mem_cons.mp hc with rfl | hc
          · exact le_trans (not_lt.mp hgt) ih2
          · exact ih1 c hc
        · rcases ih3 with heq | ⟨hm, hl⟩
          · exact Or.inl heq
          · exact Or.inr ⟨List.mem_cons_of_mem a hm, hl⟩

/-- **C3, amended.** The first centroid is the input color at the single
random index; each subsequent centroid is chosen *deterministically* as an
input color maximizing the distance to the nearest already-chosen
centroid (farthest-point heuristic), not by a probability-proportional
draw: `farthestColor` returns an element of the input whose min-distance
to the centroids is maximal over the whole input. -/
theorem kmeans_seeding_farthest_point (allColors centroids : List RGB)
    (h : allColors ≠ []) :
    farthestColor allColors centroids ∈ allColors ∧
    ∀ c ∈ allColors, minDistSqTo c centroids ≤
      minDistSqTo (farthestColor allColors centroids) centroids := by
  obtain ⟨a, t, rfl⟩ := List.exists_cons_of_ne_nil h
  unfold farthestColor
  obtain ⟨h1, -, h3⟩ := farthest_fold centroids (a :: t) ((a :: t).headD ⟨0, 0, 0⟩, -1)
  rcases h3 with heq | ⟨hmem, hlink⟩
  · exfalso
    have := h1 a (by simp)
    rw [heq] at this
    have := minDistSqTo_nonneg a centroids
    simp at *
    omega
  · exact ⟨hmem, fun c hc => hlink ▸ h1 c hc⟩

/-- Witness for C3 (amended) at a concrete input. -/
theorem kmeans_seeding_farthest_point_witness :
    farthestColor [⟨0, 0, 0⟩, ⟨9, 9, 9⟩] [⟨0, 0, 0⟩] ∈
        [(⟨0, 0, 0⟩ : RGB), ⟨9, 9, 9⟩] ∧
      ∀ c ∈ [(⟨0, 0, 0⟩ : RGB), ⟨9, 9, 9⟩], minDistSqTo c [⟨0, 0, 0⟩] ≤
        minDistSqTo (farthestColor [⟨0, 0, 0⟩, ⟨9, 9, 9⟩] [⟨0, 0, 0⟩]) [⟨0, 0, 0⟩] :=
  kmeans_seeding_farthest_point [⟨0, 0, 0⟩, ⟨9, 9, 9⟩] [⟨0, 0, 0⟩] (by decide)

/-! ### C10: termination domain of `pixelateImage` -/

lemma cellPixelIdx_length (w sx ex sy ey : ℕ) :
    (cellPixelIdx w sx ex sy ey).length = (ey - sy) * (ex - sx) := by
  simp only [cellPixelIdx, List.length_flatMap, Function.comp_def, List.length_map,
    List.length_range]
  rw [List.map_const', List.sum_replicate, List.length_range, smul_eq_mul]

lemma cellAverage_isSome (img : ImageData) (cw row col : ℕ) (hcw : cw ≠ 0)
    (hx : (col + 1) * cw ≤ img.width) (hy : (row + 1) * cw ≤ img.height) :
    (cellAverage img cw row col).isSome := by
  have hx' : col * cw + cw ≤ img.width := by rw [Nat.succ_mul] at hx; omega
  have hy' : row * cw + cw ≤ img.height := by rw [Nat.succ_mul] at hy; omega
  unfold cellAverage
  simp only [cellPixelIdx_length, min_eq_left hx', min_eq_left hy']
  have hsub1 : row * cw + cw - row * cw = cw := by omega
  have hsub2 : col * cw + cw - col * cw = cw := by omega
  rw [hsub1, hsub2,
    if_pos (Nat.mul_pos (Nat.pos_of_ne_zero hcw) (Nat.pos_of_ne_zero hcw))]
  simp

lemma length_filterMap_of_isSome {α β : Type} (l : List α) (f : α → Option β)
    (h : ∀ a ∈ l, (f a).isSome) : (l.filterMap f).length = l.length := by
  induction l with
  | nil => simp
  | cons a t ih =>
      rw [List.filterMap_cons]
      obtain ⟨b, hb⟩ := Option.isSome_iff_exists.mp (h a (by simp))
      rw [hb]
      simp [ih fun x hx => h x (by simp [hx])]

/-- Whenever `pixelateImage` returns, every row of the returned grid has
exactly `gridWidth` entries (the `count > 0` guard holds for every cell). -/
lemma pixelate_some_rows (img : ImageData) (gw : ℕ) (res : PixelateResult)
    (h : pixelateImage img gw = some res) : ∀ row ∈ res.colors, row.length = gw := by
  unfold pixelateImage at h
  by_cases hgw : gw = 0
  · rw [if_pos hgw] at h
    simp at h
  · rw [if_neg hgw] at h
    by_cases hcw : img.width / gw = 0
    · rw [if_pos hcw] at h
      by_cases hh0 : img.height = 0
      · rw [if_pos hh0] at h
        obtain rfl := (Option.some.inj h).symm
        intro row hrow
        simp at hrow
      · rw [if_neg hh0] at h
        simp at h
    · rw [if_neg hcw] at h
      obtain rfl := (Option.some.inj h).symm
      intro row hrow
      simp only at hrow
      obtain ⟨r, hr, rfl⟩ := List.mem_map.mp hrow
      rw [length_filterMap_of_isSome, List.length_range]
      intro col hcol
      refine cellAverage_isSome img _ r col hcw ?_ ?_
      · calc (col + 1) * (img.width / gw) ≤ gw * (img.width / gw) := by
              exact Nat.mul_le_mul_right _ (by
                have := List.mem_range.mp hcol; omega)
          _ = img.width / gw * gw := Nat.mul_comm ..
          _ ≤ img.width := Nat.div_mul_le_self ..
      · have hrlt := List.mem_range.mp hr
        calc (r + 1) * (img.width / gw) ≤
              (img.height / (img.width / gw)) * (img.width / gw) := by
              exact Nat.mul_le_mul_right _ (by omega)
          _ ≤ img.height := Nat.div_mul_le_self ..

/-- **C10.** With `gridWidth ≥ 1` on a genuine image (`height ≥ 1`),
`pixelateImage` returns (terminates) exactly when
`⌊width / gridWidth⌋ ≥ 1`; and whenever it returns, every row of the
color grid has exactly `gridWidth` entries, i.e. the
partial-cell-dropping branch (`if (count > 0)`) never drops a cell. -/
theorem pixelate_termination_and_rows (img : ImageData) (gw : ℕ)
    (hgw : 1 ≤ gw) (hh : 1 ≤ img.height) :
    ((pixelateImage img gw).isSome ↔ 1 ≤ img.width / gw) ∧
    ∀ res, pixelateImage img gw = some res → ∀ row ∈ res.colors, row.length = gw := by
  refine ⟨?_, fun res h => pixelate_some_rows img gw res h⟩
  have hgw0 : gw ≠ 0 := by omega
  unfold pixelateImage
  rw [if_neg hgw0]
  by_cases hcw : img.width / gw = 0
  · rw [if_pos hcw, if_neg (by omega)]
    simp [hcw]
  · rw [if_neg hcw]
    simpa using Nat.one_le_iff_ne_zero.mpr hcw

/-- Witness for C10 at a concrete image. -/
theorem pixelate_termination_and_rows_witness :
    ((pixelateImage ⟨2, 2, fun _ => 5⟩ 1).isSome ↔ 1 ≤ 2 / 1) ∧
      ∀ res, pixelateImage ⟨2, 2, fun _ => 5⟩ 1 = some res →
        ∀ row ∈ res.colors, row.length = 1 :=
  pixelate_termination_and_rows ⟨2, 2, fun _ => 5⟩ 1 (by decide) (by decide)

/-! ### C6: determinism of the grid pipeline given seeded randomness -/

/-- **C6.** The grid pipeline is a pure function of the image, the
settings and the consumed random draw: two runs whose random sequences
resolve to the same first-centroid index produce identical designs (in
particular, two runs with the same random sequence do). -/
theorem grid_pipeline_deterministic (img : ImageData) (gw k : ℕ)
    (st : ShapeType) (cmm smm : ℚ) (r1 r2 : ℚ)
    (h : ∀ pres, pixelateImage img gw = some pres →
      Int.toNat ⌊r1 * (pres.colors.flatten.length : ℚ)⌋ =
        Int.toNat ⌊r2 * (pres.colors.flatten.length : ℚ)⌋) :
    processGridDesign img gw k st cmm smm r1 =
      processGridDesign img gw k st cmm smm r2 := by
  refine Option.bind_congr fun pres hmem => ?_
  unfold quantizeColors
  rw [h pres hmem]

/-- Witness for C6: two different random draws that floor to the same
index give the same design on a concrete 1×1 image. -/
theorem grid_pipeline_deterministic_witness :
    processGridDesign ⟨1, 1, fun _ => 0⟩ 1 1 .pixel 25 6 0 =
      processGridDesign ⟨1, 1, fun _ => 0⟩ 1 1 .pixel 25 6 (1 / 2) :=
  grid_pipeline_deterministic ⟨1, 1, fun _ => 0⟩ 1 1 .pixel 25 6 0 (1 / 2) (by
    intro pres hp
    rw [show pixelateImage ⟨1, 1, fun _ => 0⟩ 1 = some ⟨[[⟨0, 0, 0⟩]], 1, 1⟩ from
      rfl] at hp
    obtain rfl := Option.some.inj hp
    norm_num)

/-! ### C1: the grid design tiles the canvas -/

/-- Two axis-aligned rectangles (as placed quilt shapes) overlap: their
open interiors intersect. -/
def rectsOverlap (a b : QuiltShape) : Prop :=
  a.x < b.x + b.width ∧ b.x < a.x + a.width ∧
  a.y < b.y + b.height ∧ b.y < a.y + a.height

lemma generateQuiltDesign_shapes (quantized : List (List RGB)) (palette : List RGB)
    (st : ShapeType) (cmm smm : ℚ) :
    (generateQuiltDesign quantized palette st cmm smm).shapes =
      (List.range quantized.length).flatMap fun row =>
        (List.range (quantized.headD []).length).map fun col =>
          mkGridShape quantized st cmm smm (quantized.headD []).length
            quantized.length row col := rfl

lemma generateQuiltDesign_width (quantized : List (List RGB)) (palette : List RGB)
    (st : ShapeType) (cmm smm : ℚ) :
    (generateQuiltDesign quantized palette st cmm smm).width =
      (quantized.headD []).length * 20 := rfl

lemma generateQuiltDesign_height (quantized : List (List RGB)) (palette : List RGB)
    (st : ShapeType) (cmm smm : ℚ) :
    (generateQuiltDesign quantized palette st cmm smm).height =
      quantized.length * 20 := rfl

lemma generateQuiltDesign_colorPalette (quantized : List (List RGB))
    (palette : List RGB) (st : ShapeType) (cmm smm : ℚ) :
    (generateQuiltDesign quantized palette st cmm smm).colorPalette =
      palette.map rgbToHex := rfl

lemma sum_flatMap_replicate (n m c : ℕ) :
    (((List.range n).flatMap fun _ => List.replicate m c)).sum = n * (m * c) := by
  induction n with
  | zero => simp
  | succ j ih =>
      rw [List.range_succ, List.flatMap_append, List.sum_append, ih]
      simp [List.sum_replicate, Nat.succ_mul]

lemma flatMap_map_sum_const {α : Type} (n m : ℕ) (f : ℕ → ℕ → α) (g : α → ℕ)
    (c : ℕ) (h : ∀ r col, g (f r col) = c) :
    ((((List.range n).flatMap fun r => (List.range m).map (f r)).map g)).sum =
      n * (m * c) := by
  rw [List.map_flatMap]
  have hrow : ∀ r, ((List.range m).map (f r)).map g = List.replicate m c := by
    intro r
    rw [List.map_map, show (g ∘ f r) = fun _ => c from funext fun col => h r col,
      List.map_const', List.length_range]
  simp only [hrow]
  exact sum_flatMap_replicate n m c

/-- **C1.** Every design produced by the grid pipeline (`pixelateImage`
then `quantizeColors` then `generateQuiltDesign`) tiles its canvas
exactly: the cell areas sum to the canvas area, and no two cell
rectangles overlap. -/
theorem grid_design_tiles_canvas (img : ImageData) (gw k : ℕ) (st : ShapeType)
    (cmm smm rand : ℚ) (design : QuiltDesign)
    (hdesign : processGridDesign img gw k st cmm smm rand = some design) :
    ((design.shapes.map fun s => s.width * s.height).sum =
        design.width * design.height) ∧
      design.shapes.Pairwise fun a b => ¬ rectsOverlap a b := by
  obtain ⟨pres, hpres, hrest⟩ := Option.bind_eq_some.mp hdesign
  obtain ⟨q, hq, rfl⟩ := Option.map_eq_some'.mp hrest
  constructor
  · have hsum := flatMap_map_sum_const q.1.length (q.1.headD []).length
      (fun r col => mkGridShape q.1 st cmm smm (q.1.headD []).length q.1.length r col)
      (fun s => s.width * s.height) 400 (fun r col => rfl)
    rw [generateQuiltDesign_shapes, generateQuiltDesign_width,
      generateQuiltDesign_height, hsum]
    ring
  · rw [generateQuiltDesign_shapes, List.flatMap_def]
    refine List.pairwise_flatten.mpr ⟨?_, ?_⟩
    · intro l hl
      obtain ⟨r, hr, rfl⟩ := List.mem_map.mp hl
      rw [List.pairwise_map]
      refine (List.pairwise_lt_range _).imp ?_
      intro c c' hlt hov
      unfold rectsOverlap mkGridShape at hov
      simp only at hov
      omega
    · rw [List.pairwise_map]
      refine (List.pairwise_lt_range _).imp ?_
      intro r r' hlt x hx y hy hov
      obtain ⟨c, hc, rfl⟩ := List.mem_map.mp hx
      obtain ⟨c', hc', rfl⟩ := List.mem_map.mp hy
      unfold rectsOverlap mkGridShape at hov
      simp only at hov
      omega

/-- Witness for C1 on a concrete 1×1 image. -/
theorem grid_design_tiles_canvas_witness :
    (((generateQuiltDesign [[⟨0, 0, 0⟩]] [⟨0, 0, 0⟩] .pixel 25 6).shapes.map
          fun s => s.width * s.height).sum =
        (generateQuiltDesign [[⟨0, 0, 0⟩]] [⟨0, 0, 0⟩] .pixel 25 6).width *
          (generateQuiltDesign [[⟨0, 0, 0⟩]] [⟨0, 0, 0⟩] .pixel 25 6).height) ∧
      (generateQuiltDesign [[⟨0, 0, 0⟩]] [⟨0, 0, 0⟩] .pixel 25 6).shapes.Pairwise
        fun a b => ¬ rectsOverlap a b :=
  grid_design_tiles_canvas ⟨1, 1, fun _ => 0⟩ 1 1 .pixel 25 6 0 _ (by
    unfold processGridDesign
    rw [show pixelateImage ⟨1, 1, fun _ => 0⟩ 1 = some ⟨[[⟨0, 0, 0⟩]], 1, 1⟩ from rfl]
    rw [Option.some_bind, quantizeColors_rand_zero,
      show quantizeColorsIdx [[⟨0, 0, 0⟩]] 1 0 =
        some ([[⟨0, 0, 0⟩]], [⟨0, 0, 0⟩]) from by decide]
    rfl)

/-! ### C4: every cell color is a palette entry -/

lemma closest_fold (color : RGB) :
    ∀ (l : List RGB) (acc : RGB × Option ℤ),
      (l.foldl (closestStep color) acc).1 = acc.1 ∨
        (l.foldl (closestStep color) acc).1 ∈ l := by
  intro l
  induction l with
  | nil => intro acc; simp
  | cons a t ih =>
      rintro ⟨a1, a2⟩
      rw [List.foldl_cons]
      have hstep : closestStep color (a1, a2) a = (a, some (colorDistSq color a)) ∨
          closestStep color (a1, a2) a = (a1, a2) := by
        cases a2 with
        | none => exact Or.inl rfl
        | some m =>
            by_cases hlt : colorDistSq color a < m
            · exact Or.inl (by simp [closestStep, hlt])
            · exact Or.inr (by simp [closestStep, hlt])
      rcases hstep with h | h <;> rw [h]
      · rcases ih (a, some (colorDistSq color a)) with h1 | h1
        · exact Or.inr (h1 ▸ List.mem_cons_self a t)
        · exact Or.inr (List.mem_cons_of_mem a h1)
      · rcases ih (a1, a2) with h1 | h1
        · exact Or.inl h1
        · exact Or.inr (List.mem_cons_of_mem a h1)

lemma findClosestColor_mem (color : RGB) (palette : List RGB) (h : palette ≠ []) :
    findClosestColor color palette ∈ palette := by
  obtain ⟨a, t, rfl⟩ := List.exists_cons_of_ne_nil h
  unfold findClosestColor
  rcases closest_fold color (a :: t) ((a :: t).headD ⟨0, 0, 0⟩, none) with h1 | h1
  · rw [h1]
    exact List.mem_cons_self a t
  · exact h1

/-- An in-range entry of the quantized grid is a centroid. -/
lemma quantized_entry_mem (rows : List (List RGB)) (centroids : List RGB)
    (hcent : centroids ≠ []) (gw : ℕ) (hrows : ∀ row ∈ rows, row.length = gw)
    (r c : ℕ) (hr : r < rows.length)
    (hc : c < (((rows.map fun row =>
      row.map fun cc => findClosestColor cc centroids).headD [])).length) :
    ((rows.map fun row => row.map fun cc =>
        findClosestColor cc centroids).getD r []).getD c ⟨0, 0, 0⟩ ∈ centroids := by
  cases rows with
  | nil => simp at hr
  | cons row0 rs =>
      have hc' : c < row0.length := by simpa using hc
      have hcr : c < ((row0 :: rs).get ⟨r, hr⟩).length := by
        simp only [List.get_eq_getElem]
        rw [hrows _ (List.getElem_mem hr), ← hrows row0 (List.mem_cons_self _ _)]
        exact hc'
      have houter : ((row0 :: rs).map fun row =>
          row.map fun cc => findClosestColor cc centroids).getD r [] =
            ((row0 :: rs).get ⟨r, hr⟩).map fun cc => findClosestColor cc centroids := by
        simp only [List.get_eq_getElem]
        rw [List.getD_eq_getElem?_getD, List.getElem?_eq_getElem (by simpa using hr),
          Option.getD_some, List.getElem_map]
      rw [houter]
      have hinner : (((row0 :: rs).get ⟨r, hr⟩).map fun cc =>
          findClosestColor cc centroids).getD c ⟨0, 0, 0⟩ =
            findClosestColor (((row0 :: rs).get ⟨r, hr⟩).get ⟨c, hcr⟩) centroids := by
        simp only [List.get_eq_getElem]
        rw [List.getD_eq_getElem?_getD, List.getElem?_eq_getElem (by simpa using hcr),
          Option.getD_some, List.getElem_map]
      rw [hinner]
      exact findClosestColor_mem _ _ hcent

lemma samplePolygonColor_mem (polygon : List Pt) (img : ImageData)
    (palette : List RGB) (hlen : ¬ polygon.length < 3) (hpal : palette ≠ []) :
    samplePolygonColor polygon img palette ∈ palette := by
  unfold samplePolygonColor
  rw [if_neg hlen]
  dsimp only
  split
  · exact findClosestColor_mem _ _ hpal
  · exact findClosestColor_mem _ _ hpal

lemma computeVoronoiCells_color_mem (seeds : List Pt) (w h : ℚ)
    (vimg : ImageData) (palette : List RGB) (hpal : palette ≠ []) :
    ∀ cell ∈ computeVoronoiCells seeds w h vimg palette, cell.color ∈ palette := by
  intro cell hcell
  unfold computeVoronoiCells at hcell
  obtain ⟨i, hi, hf⟩ := List.mem_filterMap.mp hcell
  dsimp only at hf
  split at hf
  · exact absurd hf (by simp)
  · split at hf
    · exact absurd hf (by simp)
    · next h2 =>
        obtain rfl := (Option.some.inj hf).symm
        exact samplePolygonColor_mem _ _ _ h2 hpal

/-- **C4.** Every cell color is (by value) an entry of the design's
palette, on both pipeline paths: every shape of a grid-pipeline design
carries a color from the design's `colorPalette`, and every Voronoi cell
of `computeVoronoiCells` (including cells colored through the
zero-enclosed-pixels fallback inside `samplePolygonColor`) carries a
color from the given palette. -/
theorem cell_color_mem_palette (img : ImageData) (gw k : ℕ) (st : ShapeType)
    (cmm smm rand : ℚ) (design : QuiltDesign) (seeds : List Pt) (w h : ℚ)
    (vimg : ImageData) (palette : List RGB)
    (hdesign : processGridDesign img gw k st cmm smm rand = some design)
    (hpal : palette ≠ []) :
    (∀ shape ∈ design.shapes, shape.color ∈ design.colorPalette) ∧
    (∀ cell ∈ computeVoronoiCells seeds w h vimg palette, cell.color ∈ palette) := by
  refine ⟨?_, computeVoronoiCells_color_mem seeds w h vimg palette hpal⟩
  obtain ⟨pres, hpres, hrest⟩ := Option.bind_eq_some.mp hdesign
  obtain ⟨q, hq, rfl⟩ := Option.map_eq_some'.mp hrest
  intro shape hshape
  rw [generateQuiltDesign_shapes] at hshape
  obtain ⟨r, hr, hshape⟩ := List.mem_flatMap.mp hshape
  obtain ⟨c, hc, rfl⟩ := List.mem_map.mp hshape
  rw [generateQuiltDesign_colorPalette]
  unfold quantizeColors quantizeColorsIdx at hq
  by_cases hemp : pres.colors.flatten.isEmpty
  · rw [if_pos hemp] at hq
    obtain rfl := (Option.some.inj hq).symm
    simp at hr
  · rw [if_neg hemp] at hq
    by_cases hk : k = 0
    · rw [if_pos hk] at hq
      simp at hq
    · rw [if_neg hk] at hq
      dsimp only at hq
      obtain rfl := (Option.some.inj hq).symm
      have hcnz : kmeansLoop pres.colors.flatten k 20
          (kmeansInitCentroids pres.colors.flatten k
            (Int.toNat ⌊rand * (pres.colors.flatten.length : ℚ)⌋)) ≠ [] := by
        intro hnil
        have hlen := kmeansLoop_length pres.colors.flatten k 20 _
          (kmeansInitCentroids_length pres.colors.flatten k
            (Int.toNat ⌊rand * (pres.colors.flatten.length : ℚ)⌋)
            (Nat.one_le_iff_ne_zero.mpr hk))
        rw [hnil] at hlen
        exact hk hlen.symm
      have hrlt : r < pres.colors.length := by
        simpa using List.mem_range.mp hr
      exact List.mem_map_of_mem rgbToHex
        (quantized_entry_mem pres.colors _ hcnz gw
          (pixelate_some_rows img gw pres hpres) r c hrlt
          (List.mem_range.mp hc))

/-- Witness for C4: a concrete 1×1-image grid design and a concrete
5-seed Voronoi configuration with a nonempty palette. -/
theorem cell_color_mem_palette_witness :
    (∀ shape ∈ (generateQuiltDesign [[⟨0, 0, 0⟩]] [⟨0, 0, 0⟩] .triangle 25 6).shapes,
        shape.color ∈
          (generateQuiltDesign [[⟨0, 0, 0⟩]] [⟨0, 0, 0⟩] .triangle 25 6).colorPalette) ∧
      (∀ cell ∈ computeVoronoiCells [⟨2, 2⟩, ⟨8, 2⟩, ⟨2, 8⟩, ⟨8, 8⟩, ⟨5, 5⟩] 10 10
          ⟨10, 10, fun _ => 100⟩ [⟨1, 2, 3⟩, ⟨7, 7, 7⟩],
        cell.color ∈ [(⟨1, 2, 3⟩ : RGB), ⟨7, 7, 7⟩]) :=
  cell_color_mem_palette ⟨1, 1, fun _ => 0⟩ 1 1 .triangle 25 6 0 _
    [⟨2, 2⟩, ⟨8, 2⟩, ⟨2, 8⟩, ⟨8, 8⟩, ⟨5, 5⟩] 10 10 ⟨10, 10, fun _ => 100⟩
    [⟨1, 2, 3⟩, ⟨7, 7, 7⟩]
    (by
      unfold processGridDesign
      rw [show pixelateImage ⟨1, 1, fun _ => 0⟩ 1 = some ⟨[[⟨0, 0, 0⟩]], 1, 1⟩ from rfl]
      rw [Option.some_bind, quantizeColors_rand_zero,
        show quantizeColorsIdx [[⟨0, 0, 0⟩]] 1 0 =
          some ([[⟨0, 0, 0⟩]], [⟨0, 0, 0⟩]) from by decide]
      rfl)
    (by decide)

/-! ### C5: clipped polygons stay within the canvas -/

lemma edgeCross_lerp (e : ClipEdge) (a b : Pt) (t : ℚ) :
    edgeCross e ⟨a.x + t * (b.x - a.x), a.y + t * (b.y - a.y)⟩ =
      (1 - t) * edgeCross e a + t * edgeCross e b := by
  simp only [edgeCross]
  ring

lemma cross_lerp_nonneg (e : ClipEdge) (a b : Pt) (t : ℚ)
    (ha : 0 ≤ edgeCross e a) (hb : 0 ≤ edgeCross e b)
    (ht0 : 0 ≤ t) (ht1 : t ≤ 1) :
    0 ≤ edgeCross e ⟨a.x + t * (b.x - a.x), a.y + t * (b.y - a.y)⟩ := by
  rw [edgeCross_lerp]
  have h1 : 0 ≤ (1 - t) * edgeCross e a := mul_nonneg (by linarith) ha
  have h2 : 0 ≤ t * edgeCross e b := mul_nonneg ht0 hb
  linarith

/-- Every intersection point `lineIntersection` returns lies exactly on
the clip edge's line, is an affine combination of its two segment
endpoints, and — when the endpoints straddle the edge, which is the only
way Sutherland–Hodgman calls it — the combination parameter lies in
`[0, 1]`. -/
lemma lineIntersection_form (p1 p2 : Pt) (e : ClipEdge) (pt : Pt)
    (h : lineIntersection p1 p2 e = some pt) :
    ∃ t : ℚ, pt = ⟨p1.x + t * (p2.x - p1.x), p1.y + t * (p2.y - p1.y)⟩ ∧
      edgeCross e pt = 0 ∧
      (((0 ≤ edgeCross e p1 ∧ edgeCross e p2 < 0) ∨
        (edgeCross e p1 < 0 ∧ 0 ≤ edgeCross e p2)) → 0 ≤ t ∧ t ≤ 1) := by
  unfold lineIntersection at h
  dsimp only at h
  split at h
  · exact absurd h (by simp)
  · next hdenom =>
      obtain rfl := (Option.some.inj h).symm
      set u := edgeCross e p1 with hu
      set v := edgeCross e p2 with hv
      have hden : (p1.x - p2.x) * (e.y1 - e.y2) - (p1.y - p2.y) * (e.x1 - e.x2) =
          u - v := by
        rw [hu, hv]
        simp only [edgeCross]
        ring
      have hnum : (p1.x - e.x1) * (e.y1 - e.y2) - (p1.y - e.y1) * (e.x1 - e.x2) =
          u := by
        rw [hu]
        simp only [edgeCross]
        ring
      rw [hden] at hdenom
      refine ⟨_, by rw [hden, hnum], ?_, ?_⟩
      · rw [edgeCross_lerp, hden, hnum, ← hu, ← hv]
        field_simp
        ring
      · rintro (⟨h1, h2⟩ | ⟨h1, h2⟩)
        · have hpos : 0 < u - v := by linarith
          constructor
          · exact div_nonneg h1 (le_of_lt hpos)
          · rw [div_le_one hpos]
            linarith
        · have hneg : 0 < v - u := by linarith
          have heq : u / (u - v) = (-u) / (v - u) := by
            rw [show v - u = -(u - v) from by ring, div_neg, neg_div, neg_neg]
          rw [heq]
          constructor
          · exact div_nonneg (by linarith) (le_of_lt hneg)
          · rw [div_le_one hneg]
            linarith

/-- One Sutherland–Hodgman pass preserves any convex predicate on the
input vertices and establishes the new half-plane. -/
lemma clipStep_sound (Q : Pt → Prop) (e : ClipEdge)
    (hconv : ∀ a b t, Q a → Q b → 0 ≤ t → t ≤ 1 →
      Q ⟨a.x + t * (b.x - a.x), a.y + t * (b.y - a.y)⟩)
    (input : List Pt) (hin : ∀ p ∈ input, Q p) :
    ∀ p ∈ clipStep e input, Q p ∧ 0 ≤ edgeCross e p := by
  intro p hp
  unfold clipStep at hp
  obtain ⟨i, hi, hp⟩ := List.mem_flatMap.mp hp
  dsimp only at hp
  have hilt : i < input.length := List.mem_range.mp hi
  have hlenpos : 0 < input.length := lt_of_le_of_lt (Nat.zero_le i) hilt
  have hcurmem : input.getD i ⟨0, 0⟩ ∈ input := by
    rw [List.getD_eq_getElem?_getD, List.getElem?_eq_getElem hilt, Option.getD_some]
    exact List.getElem_mem hilt
  have hnextlt : (i + 1) % input.length < input.length := Nat.mod_lt _ hlenpos
  have hnextmem : input.getD ((i + 1) % input.length) ⟨0, 0⟩ ∈ input := by
    rw [List.getD_eq_getElem?_getD, List.getElem?_eq_getElem hnextlt,
      Option.getD_some]
    exact List.getElem_mem hnextlt
  set current := input.getD i ⟨0, 0⟩ with hcur
  set next := input.getD ((i + 1) % input.length) ⟨0, 0⟩ with hnxt
  split at hp
  · next hinC =>
      have hcrossC : 0 ≤ edgeCross e current := of_decide_eq_true hinC
      split at hp
      · next hinN =>
          rw [List.mem_singleton] at hp
          exact hp ▸ ⟨hin current hcurmem, hcrossC⟩
      · next hinN =>
          have hcrossN : edgeCross e next < 0 := by
            simpa [isInsideEdge] using hinN
          rcases List.mem_cons.mp hp with rfl | hp
          · exact ⟨hin current hcurmem, hcrossC⟩
          · have hsome : lineIntersection current next e = some p :=
              Option.mem_def.mp (Option.mem_toList.mp hp)
            obtain ⟨t, rfl, hzero, hbounds⟩ :=
              lineIntersection_form current next e p hsome
            obtain ⟨ht0, ht1⟩ := hbounds (Or.inl ⟨hcrossC, hcrossN⟩)
            exact ⟨hconv current next t (hin current hcurmem)
              (hin next hnextmem) ht0 ht1, le_of_eq hzero.symm⟩
  · next hinC =>
      have hcrossC : edgeCross e current < 0 := by
        simpa [isInsideEdge] using hinC
      split at hp
      · next hinN =>
          have hcrossN : 0 ≤ edgeCross e next := of_decide_eq_true hinN
          have hsome : lineIntersection current next e = some p :=
            Option.mem_def.mp (Option.mem_toList.mp hp)
          obtain ⟨t, rfl, hzero, hbounds⟩ :=
            lineIntersection_form current next e p hsome
          obtain ⟨ht0, ht1⟩ := hbounds (Or.inr ⟨hcrossC, hcrossN⟩)
          exact ⟨hconv current next t (hin current hcurmem)
            (hin next hnextmem) ht0 ht1, le_of_eq hzero.symm⟩
      · simp at hp

/-- **C5.** For every seed-derived polygon and every positive canvas,
every vertex of the polygon returned by the Sutherland–Hodgman clipping
`clipPolygonToRect` satisfies `0 ≤ x ≤ width` and `0 ≤ y ≤ height`. -/
theorem clipped_polygon_within_canvas (polygon : List Pt) (w h : ℚ)
    (hw : 0 < w) (hh : 0 < h) :
    ∀ p ∈ clipPolygonToRect polygon w h,
      0 ≤ p.x ∧ p.x ≤ w ∧ 0 ≤ p.y ∧ p.y ≤ h := by
  intro p hp
  unfold clipPolygonToRect at hp
  split at hp
  · simp at hp
  · simp only [rectClipEdges, List.foldl_cons, List.foldl_nil] at hp
    have s1 := clipStep_sound (fun _ => True) ⟨0, 0, w, 0⟩
      (by intros; trivial) polygon (by intros; trivial)
    have s2 := clipStep_sound (fun q => 0 ≤ edgeCross ⟨0, 0, w, 0⟩ q)
      ⟨w, 0, w, h⟩
      (fun a b t ha hb ht0 ht1 => cross_lerp_nonneg _ a b t ha hb ht0 ht1)
      _ (fun q hq => (s1 q hq).2)
    have s3 := clipStep_sound
      (fun q => 0 ≤ edgeCross ⟨0, 0, w, 0⟩ q ∧ 0 ≤ edgeCross ⟨w, 0, w, h⟩ q)
      ⟨w, h, 0, h⟩
      (fun a b t ha hb ht0 ht1 =>
        ⟨cross_lerp_nonneg _ a b t ha.1 hb.1 ht0 ht1,
         cross_lerp_nonneg _ a b t ha.2 hb.2 ht0 ht1⟩)
      _ (fun q hq => ⟨(s2 q hq).1, (s2 q hq).2⟩)
    have s4 := clipStep_sound
      (fun q => (0 ≤ edgeCross ⟨0, 0, w, 0⟩ q ∧ 0 ≤ edgeCross ⟨w, 0, w, h⟩ q) ∧
        0 ≤ edgeCross ⟨w, h, 0, h⟩ q)
      ⟨0, h, 0, 0⟩
      (fun a b t ha hb ht0 ht1 =>
        ⟨⟨cross_lerp_nonneg _ a b t ha.1.1 hb.1.1 ht0 ht1,
          cross_lerp_nonneg _ a b t ha.1.2 hb.1.2 ht0 ht1⟩,
         cross_lerp_nonneg _ a b t ha.2 hb.2 ht0 ht1⟩)
      _ (fun q hq => ⟨(s3 q hq).1, (s3 q hq).2⟩)
    obtain ⟨⟨⟨h1, h2⟩, h3⟩, h4⟩ := s4 p hp
    simp only [edgeCross] at h1 h2 h3 h4
    refine ⟨?_, ?_, ?_, ?_⟩
    · by_contra hneg
      push_neg at hneg
      nlinarith
    · by_contra hneg
      push_neg at hneg
      nlinarith
    · by_contra hneg
      push_neg at hneg
      nlinarith
    · by_contra hneg
      push_neg at hneg
      nlinarith

/-- Witness for C5: a concrete diamond polygon overhanging a 10×10
canvas. -/
theorem clipped_polygon_within_canvas_witness :
    (0 : ℚ) < 10 ∧
      ∀ p ∈ clipPolygonToRect [⟨-5, 5⟩, ⟨5, 15⟩, ⟨15, 5⟩, ⟨5, -5⟩] 10 10,
        0 ≤ p.x ∧ p.x ≤ 10 ∧ 0 ≤ p.y ∧ p.y ≤ 10 :=
  ⟨by norm_num,
    clipped_polygon_within_canvas [⟨-5, 5⟩, ⟨5, 15⟩, ⟨15, 5⟩, ⟨5, -5⟩] 10 10
      (by norm_num) (by norm_num)⟩

/-! ### C9: seed counts of the Seed Generator -/

/-- A fold whose step never grows the accumulator past `target` (and
freezes it once `target` is reached) keeps the length at most `target`. -/
lemma fold_length_le {α : Type} (target : ℕ) (step : List α → α → List α)
    (hstep : ∀ acc p, (step acc p).length ≤ acc.length + 1 ∧
      (acc.length ≥ target → step acc p = acc)) :
    ∀ (l : List α) (acc : List α), acc.length ≤ target →
      (l.foldl step acc).length ≤ target := by
  intro l
  induction l with
  | nil => intro acc h; simpa using h
  | cons a t ih =>
      intro acc h
      rw [List.foldl_cons]
      by_cases hge : acc.length ≥ target
      · rw [(hstep acc a).2 hge]
        exact ih acc h
      · exact ih (step acc a) (by have := (hstep acc a).1; omega)

open scoped Classical in
lemma sampleEdgePoints_length_le (edgePixels : List (ℕ × ℕ)) (targetCount : ℕ)
    (minDistance : ℝ) (shuffle : List (ℕ × ℕ) → List (ℕ × ℕ)) :
    (sampleEdgePoints edgePixels targetCount minDistance shuffle).length ≤
      targetCount := by
  unfold sampleEdgePoints
  split
  · simp
  · refine fold_length_le targetCount _ (fun acc p => ⟨?_, ?_⟩)
      (shuffle edgePixels) [] (by simp)
    · split
      · omega
      · split
        · omega

        · simp
    · intro hge
      rw [if_pos hge]

lemma fillSeedsLoop_length_le (width height : ℕ) (edgeSeeds : List (ℕ × ℕ))
    (minEdgeDistance : ℝ) (numFillSeeds : ℕ) (rng : ℕ → ℚ) :
    ∀ (fuel attempt : ℕ) (fills : List Pt), fills.length ≤ numFillSeeds →
      (fillSeedsLoop width height edgeSeeds minEdgeDistance numFillSeeds rng
        fuel attempt fills).length ≤ numFillSeeds := by
  intro fuel
  induction fuel with
  | zero => intro attempt fills h; simpa [fillSeedsLoop] using h
  | succ n ih =>
      intro attempt fills h
      rw [fillSeedsLoop]
      dsimp only
      split
      · next hlt =>
          refine ih _ _ ?_
          split
          · exact h
          · simpa using hlt
      · exact h

/-- **C9.** With edge weighting, the Seed Generator returns at most
`numSeeds` seeds: at most `⌊0.6 · numSeeds⌋ = 3 · numSeeds / 5` edge
seeds followed by at most `numSeeds - ⌊0.6 · numSeeds⌋` fill seeds
(the rejection-sampling loop is capped at `20 ×` the fill-seed count and
simply yields fewer seeds when the cap is hit — the function is total, no
error). The non-edge-weighted path (no edge weighting, or no edge data)
returns exactly `numSeeds` seeds. -/
theorem voronoi_seed_counts (width height numSeeds : ℕ) (ed : EdgeData)
    (edgeWeighted : Bool) (rng : ℕ → ℚ)
    (shuffle : List (ℕ × ℕ) → List (ℕ × ℕ)) :
    (∃ edgeSeeds fillSeeds,
      generateVoronoiSeeds width height numSeeds (some ed) true rng shuffle =
          edgeSeeds ++ fillSeeds ∧
        edgeSeeds.length ≤ 3 * numSeeds / 5 ∧
        fillSeeds.length ≤ numSeeds - 3 * numSeeds / 5) ∧
      (generateVoronoiSeeds width height numSeeds (some ed) true rng
        shuffle).length ≤ numSeeds ∧
      (generateVoronoiSeeds width height numSeeds none edgeWeighted rng
        shuffle).length = numSeeds ∧
      (generateVoronoiSeeds width height numSeeds (some ed) false rng
        shuffle).length = numSeeds := by
  have hes := sampleEdgePoints_length_le
    (extractEdgePixels
      (nonMaxSuppression ed.magnitude ed.direction width height) width height)
    (3 * numSeeds / 5)
    (Real.sqrt ((width * height : ℝ) / numSeeds) * 0.5) shuffle
  have hfs := fillSeedsLoop_length_le width height
    (sampleEdgePoints
      (extractEdgePixels
        (nonMaxSuppression ed.magnitude ed.direction width height) width height)
      (3 * numSeeds / 5)
      (Real.sqrt ((width * height : ℝ) / numSeeds) * 0.5) shuffle)
    (Real.sqrt ((width * height : ℝ) / numSeeds) * 0.5)
    (numSeeds - 3 * numSeeds / 5) rng ((numSeeds - 3 * numSeeds / 5) * 20) 0 []
    (by simp)
  refine ⟨⟨_, _, rfl, by simpa using hes, hfs⟩, ?_, ?_, ?_⟩
  · have hsplit : 3 * numSeeds / 5 ≤ numSeeds :=
      Nat.div_le_of_le_mul (by omega)
    simp only [generateVoronoiSeeds, List.length_append, List.length_map]
    omega
  · cases edgeWeighted <;>
      simp [generateVoronoiSeeds]
  · simp [generateVoronoiSeeds]

end ArtQuilt
